import Mathlib

/-!
Verification of the NFT ledger state machine of summerplaygames/nft.

The repository carries three revisions of the same ledger:
* `contract.go` — `DefaultContract` with error returns (`ErrNoExist`,
  `ErrAlreadyExists`), lazily fetched sub-maps, and tests in the
  accompanying test file; embedded below in namespace `ContractGo`.
* `nft.go` — `Contract` over a `Context`; embedded in namespace `NftGo`.
* the unnamed revision (part_005) — `DefaultContract` without an error
  channel; embedded in namespace `P005`.

Go maps are embedded as association lists with Go's lookup / insert /
delete semantics; Go slices of token ids as `List String`; the
`totalTokens` field is kept in its source representation, a base-10
string manipulated through `big.Int` parsing and printing, which are
modelled exactly (`goSetString10`, `intToDecString`).  Each operation is
a pure function from the loaded contract state to a `TxResult`: the
lazy-fetch branches of contract.go run only when a sub-map is still
`nil` (not yet loaded); the embedding models the loaded state (spec §3:
absent sub-maps are treated as empty, an absent counter as zero), and an
operation that would consult the remote store for an unparseable counter
returns the explicit `storeDep` outcome instead of a state.  A Go
runtime panic from an out-of-range slice expression is the explicit
`panicked` outcome.
-/

namespace NftVerify

/-! ## Go maps as association lists -/

/-- Lookup in a Go map modelled as an association list (first match). -/
def mapLookup {α : Type} (m : List (String × α)) (k : String) : Option α :=
  match m with
  | [] => none
  | (k', v) :: rest => if k' = k then some v else mapLookup rest k

/-- Go map assignment `m[k] = v`: overwrite the existing entry, else append. -/
def mapInsert {α : Type} (m : List (String × α)) (k : String) (v : α) :
    List (String × α) :=
  match m with
  | [] => [(k, v)]
  | p :: rest => if p.1 = k then (k, v) :: rest else p :: mapInsert rest k v

/-- Go `delete(m, k)`: remove the entry for `k`. -/
def mapDelete {α : Type} (m : List (String × α)) (k : String) :
    List (String × α) :=
  match m with
  | [] => []
  | p :: rest => if p.1 = k then mapDelete rest k else p :: mapDelete rest k

/-- The keys of a modelled Go map are pairwise distinct. -/
def NoDupKeys {α : Type} (m : List (String × α)) : Prop :=
  (m.map Prod.fst).Nodup

instance {α : Type} (m : List (String × α)) : Decidable (NoDupKeys m) := by
  unfold NoDupKeys
  infer_instance

/-! ## big.Int decimal parsing and printing -/

/-- Decimal digit character for a value below ten. -/
def digitChar (d : Nat) : Char := Char.ofNat (48 + d)

/-- Numeric value of a decimal digit character, if it is one. -/
def digitVal (c : Char) : Option Nat :=
  if 48 ≤ c.toNat ∧ c.toNat ≤ 57 then some (c.toNat - 48) else none

/-- Value of a base-10 digit string; `none` if any character is not a digit. -/
def parseDigits (l : List Char) : Option Nat :=
  l.foldl (fun acc c => acc.bind fun a => (digitVal c).map fun d => 10 * a + d)
    (some 0)

/-- Model of Go `big.Int.SetString(s, 10)`: an optional sign followed by a
nonempty run of decimal digits.  Returns `none` exactly when Go's `SetString`
reports failure. -/
def goSetString10 (s : String) : Option Int :=
  match s.data with
  | [] => none
  | c :: rest =>
    if c = '+' then
      if rest = [] then none else (parseDigits rest).map fun n => (n : Int)
    else if c = '-' then
      if rest = [] then none else (parseDigits rest).map fun n => -(n : Int)
    else
      (parseDigits (c :: rest)).map fun n => (n : Int)

/-- Fuelled digit expansion of a natural number, most significant first. -/
def natToDecCore (fuel n : Nat) : List Char :=
  match fuel with
  | 0 => []
  | fuel + 1 =>
    if n < 10 then [digitChar n]
    else natToDecCore fuel (n / 10) ++ [digitChar (n % 10)]

/-- Decimal digits of a natural number, most significant first. -/
def natToDecChars (n : Nat) : List Char := natToDecCore (n + 1) n

/-- Model of Go `big.Int.String()`: canonical base-10 form, a leading minus
sign for negative values, `"0"` for zero. -/
def intToDecString (v : Int) : String :=
  match v with
  | Int.ofNat n => ⟨natToDecChars n⟩
  | Int.negSucc m => ⟨'-' :: natToDecChars (m + 1)⟩

/-! ## Operation outcomes -/

/-- Errors the ledger operations can signal: `noExist` is `ErrNoExist`
("resource does not exist"), `alreadyExists` is `ErrAlreadyExists`. -/
inductive GoErr where
  | noExist
  | alreadyExists
deriving DecidableEq, Repr

/-- Outcome of running one Go method on a loaded contract value.
`ok s` is a normal return with resulting state `s`; `err e s` is an error
return whose receiver holds state `s` at the point of return; `panicked`
is a Go runtime panic (out-of-range slice expression); `storeDep` marks
the path where contract.go would consult the remote object store because
the in-memory `TotalTokens` string does not parse, so the outcome is not
determined by the in-memory state alone. -/
inductive TxResult (σ : Type) where
  | ok (s : σ)
  | err (e : GoErr) (s : σ)
  | panicked
  | storeDep
deriving DecidableEq, Repr

/-- The resulting state of a normal (non-error) return, if any. -/
def TxResult.okState? {σ : Type} : TxResult σ → Option σ
  | .ok s => some s
  | _ => none

/-! ## contract.go: `DefaultContract`

Embedding of the ledger revision in `contract.go`.  The struct fields are
those of the Go struct (the unexported `client` handle belongs to the
store adapter, which is out of scope); each method is translated
branch-for-branch, with the `if c.X == nil { fetch }` blocks elided
because the embedding models the loaded state (no sub-map is `nil`). -/

namespace ContractGo

structure DefaultContract where
  TokenOwners : List (String × String)
  OwnedTokens : List (String × List String)
  OwnedTokenIndex : List (String × Nat)
  TotalTokens : String
  ContractName : String
  ContractSymbol : String
deriving DecidableEq, Repr

/-- `TokensOwnedBy`: the owner's token list, or `ErrNoExist` when the owner
has no entry. -/
def TokensOwnedBy (c : DefaultContract) (owner : String) :
    Option (List String) × Option GoErr :=
  match mapLookup c.OwnedTokens owner with
  | some tokens => (some tokens, none)
  | none => (none, some GoErr.noExist)

/-- `BalanceOf`: `uint64(len(tokens))` of `TokensOwnedBy` together with its
error (a `nil` slice has length 0). -/
def BalanceOf (c : DefaultContract) (owner : String) : Nat × Option GoErr :=
  let r := TokensOwnedBy c owner
  ((r.1.getD []).length, r.2)

/-- `OwnerOf`: current owner of a token, or `ErrNoExist`. -/
def OwnerOf (c : DefaultContract) (tokenID : String) :
    Option String × Option GoErr :=
  match mapLookup c.TokenOwners tokenID with
  | some owner => (some owner, none)
  | none => (none, some GoErr.noExist)

/-- `removeToken`: contract.go lines 198-231.  `TotalSupply()` is consulted
first; when `TotalTokens` does not parse the Go code falls back on the remote
store (`storeDep`).  The slice expression
`append(c.OwnedTokens[from][:tokenIndex], c.OwnedTokens[from][tokenIndex+1:]...)`
panics whenever `tokenIndex ≥ len(c.OwnedTokens[from])` (the upper slice
bound exceeds the slice length), which the embedding returns as
`panicked`. -/
def removeToken (c : DefaultContract) (frm tid : String) :
    TxResult DefaultContract :=
  match goSetString10 c.TotalTokens with
  | none => .storeDep
  | some totalTokens =>
    match mapLookup c.OwnedTokenIndex tid with
    | none => .err .noExist c
    | some tokenIndex =>
      let owners := mapDelete c.TokenOwners tid
      let l := (mapLookup c.OwnedTokens frm).getD []
      if tokenIndex < l.length then
        let l' := l.eraseIdx tokenIndex
        let owned := mapInsert c.OwnedTokens frm l'
        let owned := if l' = [] then mapDelete owned frm else owned
        .ok { c with
          TokenOwners := owners
          OwnedTokens := owned
          OwnedTokenIndex := mapDelete c.OwnedTokenIndex tid
          TotalTokens := intToDecString (totalTokens - 1) }
      else .panicked

/-- `addToken`: contract.go lines 233-267.  The duplicate-id check comes
first; then `TotalSupply()` (remote fallback when unparseable); then the
token is recorded for the target address with index equal to its balance, and the counter is
incremented. -/
def addToken (c : DefaultContract) (toAddr tid : String) :
    TxResult DefaultContract :=
  if (mapLookup c.TokenOwners tid).isSome then .err .alreadyExists c
  else
    match goSetString10 c.TotalTokens with
    | none => .storeDep
    | some totalTokens =>
      let owners := mapInsert c.TokenOwners tid toAddr
      let balance := ((mapLookup c.OwnedTokens toAddr).getD []).length
      .ok { c with
        TokenOwners := owners
        OwnedTokens := mapInsert c.OwnedTokens toAddr
          (((mapLookup c.OwnedTokens toAddr).getD []) ++ [tid])
        OwnedTokenIndex := mapInsert c.OwnedTokenIndex tid balance
        TotalTokens := intToDecString (totalTokens + 1) }

/-- `Mint` delegates toAddr `addToken`. -/
def Mint (c : DefaultContract) (toAddr tid : String) : TxResult DefaultContract :=
  addToken c toAddr tid

/-- `Burn`: `OwnerOf` then `removeToken` with that owner. -/
def Burn (c : DefaultContract) (tid : String) : TxResult DefaultContract :=
  match mapLookup c.TokenOwners tid with
  | none => .err .noExist c
  | some owner => removeToken c owner tid

/-- `Transfer`: contract.go lines 113-155.  `BalanceOf(toAddr)` is computed
before any mutation (its `ErrNoExist` is ignored); the token must be in
`OwnedTokenIndex` and `from` must have an entry in `OwnedTokens`, else
`ErrNoExist`; the removal slice panics when the stored index is out of
range; the append step reads `c.OwnedTokens[toAddr]` after the removal.
`TotalTokens` is never touched. -/
def Transfer (c : DefaultContract) (frm toAddr tid : String) :
    TxResult DefaultContract :=
  let balance := ((mapLookup c.OwnedTokens toAddr).getD []).length
  match mapLookup c.OwnedTokenIndex tid with
  | none => .err .noExist c
  | some tokenIndex =>
    match mapLookup c.OwnedTokens frm with
    | none => .err .noExist c
    | some l =>
      if tokenIndex < l.length then
        let owners := mapDelete c.TokenOwners tid
        let l' := l.eraseIdx tokenIndex
        let owned := mapInsert c.OwnedTokens frm l'
        let owned := if l' = [] then mapDelete owned frm else owned
        let owners := mapInsert owners tid toAddr
        let owned := mapInsert owned toAddr
          (((mapLookup owned toAddr).getD []) ++ [tid])
        .ok { c with
          TokenOwners := owners
          OwnedTokens := owned
          OwnedTokenIndex :=
            mapInsert (mapDelete c.OwnedTokenIndex tid) tid balance }
      else .panicked

/-- The freshly loaded empty ledger: no tokens, counter zero (spec §3:
absent sub-maps are treated as empty, an absent counter as zero). -/
def emptyContract (nm sym : String) : DefaultContract :=
  { TokenOwners := []
    OwnedTokens := []
    OwnedTokenIndex := []
    TotalTokens := "0"
    ContractName := nm
    ContractSymbol := sym }

/-- Ledger states reachable from the empty ledger by successful mutating
operations. -/
inductive Reachable : DefaultContract → Prop where
  | init (nm sym : String) : Reachable (emptyContract nm sym)
  | mint {s s' : DefaultContract} {toAddr tid : String} :
      Reachable s → Mint s toAddr tid = .ok s' → Reachable s'
  | burn {s s' : DefaultContract} {tid : String} :
      Reachable s → Burn s tid = .ok s' → Reachable s'
  | transfer {s s' : DefaultContract} {frm toAddr tid : String} :
      Reachable s → Transfer s frm toAddr tid = .ok s' → Reachable s'

end ContractGo

/-! ## nft.go: `Contract` over a `Context` -/

/-- JSON value, the embedding of a `map[string]interface{}` entry produced by
`encoding/json` (token metadata). -/
inductive JsonVal where
  | null
  | bool (b : Bool)
  | num (v : Int)
  | str (s : String)
  | arr (elems : List JsonVal)
  | obj (fields : List (String × JsonVal))

namespace NftGo

/-- The `Context` struct of nft.go: ownership state plus metadata. -/
structure Context where
  TokenOwners : List (String × String)
  OwnedTokens : List (String × List String)
  OwnedTokenIndex : List (String × Nat)
  TotalTokens : String
  TokenMetadata : List (String × List (String × JsonVal))

/-- nft.go `BalanceOf`: `uint64(len(c.context.OwnedTokens[owner]))`; a missing
owner yields the zero-value `nil` slice, hence 0.  No error channel. -/
def BalanceOf (c : Context) (owner : String) : Nat :=
  ((mapLookup c.OwnedTokens owner).getD []).length

/-- nft.go `Transfer` (lines 72-93): if the token has no index entry, or
`TotalTokens` does not parse (`BigIntString` of nft.go has no empty-string
default), return silently; otherwise delete the token from `tokenOwners`,
slice it out of the from-list (panicking when the stored index is out of
range), delete its index entry, then record it for the target address with
index `BalanceOf(to)` computed after the removal, and finally set
`TotalTokens` to `totalTokens + 1`. -/
def Transfer (c : Context) (frm toAddr : String) (tokenID : Int) :
    TxResult Context :=
  let tid := intToDecString tokenID
  match mapLookup c.OwnedTokenIndex tid with
  | none => .ok c
  | some tokenIndex =>
    match goSetString10 c.TotalTokens with
    | none => .ok c
    | some totalTokens =>
      let owners := mapDelete c.TokenOwners tid
      let l := (mapLookup c.OwnedTokens frm).getD []
      if tokenIndex < l.length then
        let owned := mapInsert c.OwnedTokens frm (l.eraseIdx tokenIndex)
        let index := mapDelete c.OwnedTokenIndex tid
        let owners := mapInsert owners tid toAddr
        let balance := ((mapLookup owned toAddr).getD []).length
        let owned := mapInsert owned toAddr
          (((mapLookup owned toAddr).getD []) ++ [tid])
        let index := mapInsert index tid balance
        .ok { c with
          TokenOwners := owners
          OwnedTokens := owned
          OwnedTokenIndex := index
          TotalTokens := intToDecString (totalTokens + 1) }
      else .panicked

/-- nft.go `TokenOfOwnerByIndex` (lines 107-115): bounds-checked lookup into
the owner's list followed by `BigIntString` on the stored id; `(nil, false)`
— here `none` — when the owner is unknown, the index is out of range, or the
stored id does not parse. -/
def TokenOfOwnerByIndex (c : Context) (owner : String) (idx : Nat) :
    Option Int :=
  match mapLookup c.OwnedTokens owner with
  | some tokens =>
    if idx < tokens.length then
      (tokens.get? idx).bind goSetString10
    else none
  | none => none

end NftGo

/-! ## part_005: the unnamed `DefaultContract` revision -/

namespace P005

/-- The `DefaultContract` struct of the part_005 revision. -/
structure DefaultContract where
  Name : String
  Symbol : String
  TokenOwners : List (String × String)
  OwnedTokens : List (String × List String)
  OwnedTokenIndex : List (String × Nat)
  TotalTokens : String
  TokenMetadata : List (String × List (String × JsonVal))

/-- part_005 `BigIntString`: an empty string is replaced by `"0"` before
parsing. -/
def BigIntString (s : String) : Option Int :=
  goSetString10 (if s = "" then "0" else s)

/-- part_005 `BalanceOf`: `uint64(len(c.OwnedTokens[owner]))`, never an
error. -/
def BalanceOf (c : DefaultContract) (owner : String) : Nat :=
  ((mapLookup c.OwnedTokens owner).getD []).length

/-- part_005 `removeToken` (lines 124-145): silently returns when
`TotalTokens` does not parse or the token has no index entry; otherwise
deletes the owner entry, slices the token out of the from-list (panicking
when the stored index is out of range), deletes the index entry and
decrements the counter.  The owner key is never dropped, even when its list
becomes empty. -/
def removeToken (c : DefaultContract) (frm tid : String) :
    TxResult DefaultContract :=
  match BigIntString c.TotalTokens with
  | none => .ok c
  | some totalTokens =>
    match mapLookup c.OwnedTokenIndex tid with
    | none => .ok c
    | some tokenIndex =>
      let l := (mapLookup c.OwnedTokens frm).getD []
      if tokenIndex < l.length then
        .ok { c with
          TokenOwners := mapDelete c.TokenOwners tid
          OwnedTokens := mapInsert c.OwnedTokens frm (l.eraseIdx tokenIndex)
          OwnedTokenIndex := mapDelete c.OwnedTokenIndex tid
          TotalTokens := intToDecString (totalTokens - 1) }
      else .panicked

/-- part_005 `addToken` (lines 147-165): when `TotalTokens` parses, record
the token for the target address unconditionally — there is no duplicate-id
check — with index `BalanceOf(to)`, and increment the counter. -/
def addToken (c : DefaultContract) (toAddr tid : String) :
    TxResult DefaultContract :=
  match BigIntString c.TotalTokens with
  | none => .ok c
  | some totalTokens =>
    let owners := mapInsert c.TokenOwners tid toAddr
    let balance := ((mapLookup c.OwnedTokens toAddr).getD []).length
    .ok { c with
      TokenOwners := owners
      OwnedTokens := mapInsert c.OwnedTokens toAddr
        (((mapLookup c.OwnedTokens toAddr).getD []) ++ [tid])
      OwnedTokenIndex := mapInsert c.OwnedTokenIndex tid balance
      TotalTokens := intToDecString (totalTokens + 1) }

/-- part_005 `Mint` (lines 62-67): the new token id is the string form of
`TotalSupply() + 1`; `TotalSupply()` returns the `BigNegOne` sentinel pointer
exactly when `TotalTokens` does not parse, and the comparison
`total != BigNegOne` is a pointer comparison, so minting proceeds exactly
when the counter parses. -/
def Mint (c : DefaultContract) (toAddr : String) : TxResult DefaultContract :=
  match BigIntString c.TotalTokens with
  | none => .ok c
  | some total => addToken c toAddr (intToDecString (total + 1))

/-- part_005 `Burn` (lines 70-78): look the owner up and remove; silently a
no-op when the token is unknown. -/
def Burn (c : DefaultContract) (tokenID : Int) : TxResult DefaultContract :=
  let tid := intToDecString tokenID
  match mapLookup c.TokenOwners tid with
  | none => .ok c
  | some owner => removeToken c owner tid

/-- part_005 `Transfer` (lines 81-85): `removeToken(from, tid)` followed by
`addToken(to, tid)`, with no precondition checks of its own. -/
def Transfer (c : DefaultContract) (frm toAddr : String) (tokenID : Int) :
    TxResult DefaultContract :=
  let tid := intToDecString tokenID
  match removeToken c frm tid with
  | .ok c' => addToken c' toAddr tid
  | r => r

/-- part_005 `TokenOfOwnerByIndex` (lines 99-110): same logic as the nft.go
revision, except that the stored id is parsed with part_005's own
`BigIntString`, whose empty-string input defaults to `"0"`. -/
def TokenOfOwnerByIndex (c : DefaultContract) (owner : String) (idx : Nat) :
    Option Int :=
  match mapLookup c.OwnedTokens owner with
  | some tokens =>
    if idx < tokens.length then
      (tokens.get? idx).bind BigIntString
    else none
  | none => none

end P005

/-! ## The ledger invariant of contract.go states -/

namespace ContractGo

/-- Decidable conjunction of the spec invariants I1-I4 on a loaded
contract.go state: the counter is the canonical decimal form of the number
of `TokenOwners` entries; all three maps have distinct keys; every owned
token sits in its owner's list at its stored index; every owner's list is
duplicate-free, non-empty, and contains only tokens mapped back to that
owner; every indexed token has an owner. -/
def InvB (s : DefaultContract) : Bool :=
  decide (s.TotalTokens = intToDecString (s.TokenOwners.length : Int))
  && decide (NoDupKeys s.TokenOwners)
  && decide (NoDupKeys s.OwnedTokens)
  && decide (NoDupKeys s.OwnedTokenIndex)
  && s.TokenOwners.all (fun p =>
      match mapLookup s.OwnedTokens p.2, mapLookup s.OwnedTokenIndex p.1 with
      | some l, some i => decide (l.get? i = some p.1)
      | _, _ => false)
  && s.OwnedTokens.all (fun q =>
      decide q.2.Nodup && !q.2.isEmpty
      && q.2.all (fun t => decide (mapLookup s.TokenOwners t = some q.1)))
  && s.OwnedTokenIndex.all (fun q => (mapLookup s.TokenOwners q.1).isSome)

/-- The ledger invariant as a proposition. -/
def Inv (s : DefaultContract) : Prop := InvB s = true

instance (s : DefaultContract) : Decidable (Inv s) := by
  unfold Inv
  infer_instance

end ContractGo

/-! ## Reachability and the supply-count invariant (contract.go) -/

namespace ContractGo

/-- The part of the ledger invariant needed for the supply count:
distinct `TokenOwners` keys, indexed tokens have owners, and the counter
is the canonical decimal form of the number of owned tokens. -/
def WF (s : DefaultContract) : Prop :=
  NoDupKeys s.TokenOwners
  ∧ (∀ t, (mapLookup s.OwnedTokenIndex t).isSome →
      (mapLookup s.TokenOwners t).isSome)
  ∧ s.TotalTokens = intToDecString (s.TokenOwners.length : Int)

end ContractGo

/-! ## Lemmas -/

theorem mapLookup_mem {α : Type} {m : List (String × α)} {k : String} {v : α}
    (h : mapLookup m k = some v) : (k, v) ∈ m := by
  induction m with
  | nil => simp [mapLookup] at h
  | cons p rest ih =>
    rcases p with ⟨k', v'⟩
    by_cases hk : k' = k
    · simp only [mapLookup, hk, if_pos, Option.some.injEq] at h
      subst hk; subst h
      exact List.mem_cons_self _ _
    · simp only [mapLookup, hk, if_neg, not_false_iff] at h
      exact List.mem_cons_of_mem _ (ih h)

@[simp]
theorem mapLookup_insert_self {α : Type} (m : List (String × α)) (k : String)
    (v : α) : mapLookup (mapInsert m k v) k = some v := by
  induction m with
  | nil => simp [mapInsert, mapLookup]
  | cons p rest ih =>
    by_cases hk : p.1 = k
    · simp [mapInsert, hk, mapLookup]
    · simp [mapInsert, hk, mapLookup, ih]

@[simp]
theorem mapLookup_insert_ne {α : Type} (m : List (String × α)) {k k' : String}
    (v : α) (h : k ≠ k') : mapLookup (mapInsert m k v) k' = mapLookup m k' := by
  induction m with
  | nil => simp [mapInsert, mapLookup, h]
  | cons p rest ih =>
    by_cases hk : p.1 = k
    · simp [mapInsert, hk, mapLookup, h, hk ▸ h]
    · simp only [mapInsert, hk, if_neg, not_false_iff, mapLookup]
      by_cases hk' : p.1 = k'
      · simp [hk']
      · simp [hk', ih]

@[simp]
theorem mapLookup_delete_self {α : Type} (m : List (String × α)) (k : String) :
    mapLookup (mapDelete m k) k = none := by
  induction m with
  | nil => rfl
  | cons p rest ih =>
    by_cases hk : p.1 = k
    · simpa [mapDelete, hk] using ih
    · simpa [mapDelete, hk, mapLookup] using ih

@[simp]
theorem mapLookup_delete_ne {α : Type} (m : List (String × α)) {k k' : String}
    (h : k ≠ k') : mapLookup (mapDelete m k) k' = mapLookup m k' := by
  induction m with
  | nil => rfl
  | cons p rest ih =>
    simp only [mapDelete]
    by_cases hk : p.1 = k
    · have hne : ¬p.1 = k' := fun hc => h (hk.symm.trans hc)
      rw [if_pos hk, ih]
      conv_rhs => rw [mapLookup]
      rw [if_neg hne]
    · rw [if_neg hk]
      by_cases hk' : p.1 = k'
      · simp [mapLookup, hk']
      · simp only [mapLookup, if_neg hk']
        exact ih

theorem mapLookup_eq_none_of_not_mem_keys {α : Type} {m : List (String × α)}
    {k : String} (h : k ∉ m.map Prod.fst) : mapLookup m k = none := by
  induction m with
  | nil => rfl
  | cons p rest ih =>
    simp only [List.map_cons, List.mem_cons, not_or] at h
    simp only [mapLookup]
    rw [if_neg (fun hc => h.1 hc.symm)]
    exact ih h.2

theorem mem_keys_of_mapLookup_isSome {α : Type} {m : List (String × α)}
    {k : String} (h : (mapLookup m k).isSome) : k ∈ m.map Prod.fst := by
  by_contra hc
  rw [mapLookup_eq_none_of_not_mem_keys hc] at h
  simp at h

theorem not_mem_keys_of_mapLookup_eq_none {α : Type} {m : List (String × α)}
    {k : String} (h : mapLookup m k = none) : k ∉ m.map Prod.fst := by
  induction m with
  | nil => simp
  | cons p rest ih =>
    simp only [mapLookup] at h
    by_cases hk : p.1 = k
    · rw [if_pos hk] at h; cases h
    · rw [if_neg hk] at h
      simp only [List.map_cons, List.mem_cons, not_or]
      exact ⟨fun hc => hk hc.symm, ih h⟩

theorem mapInsert_of_lookup_none {α : Type} {m : List (String × α)}
    {k : String} (v : α) (h : mapLookup m k = none) :
    mapInsert m k v = m ++ [(k, v)] := by
  induction m with
  | nil => rfl
  | cons p rest ih =>
    simp only [mapLookup] at h
    by_cases hk : p.1 = k
    · rw [if_pos hk] at h; cases h
    · rw [if_neg hk] at h
      simp [mapInsert, hk, ih h]

theorem mapDelete_of_lookup_none {α : Type} {m : List (String × α)}
    {k : String} (h : mapLookup m k = none) : mapDelete m k = m := by
  induction m with
  | nil => rfl
  | cons p rest ih =>
    simp only [mapLookup] at h
    by_cases hk : p.1 = k
    · rw [if_pos hk] at h; cases h
    · rw [if_neg hk] at h
      simp [mapDelete, hk, ih h]

theorem mapDelete_sublist {α : Type} (m : List (String × α)) (k : String) :
    (mapDelete m k).Sublist m := by
  induction m with
  | nil => simp [mapDelete]
  | cons p rest ih =>
    by_cases hk : p.1 = k
    · simp only [mapDelete, if_pos hk]
      exact ih.cons p
    · simp only [mapDelete, if_neg hk]
      exact ih.cons₂ p

theorem noDupKeys_mapDelete {α : Type} {m : List (String × α)} (k : String)
    (h : NoDupKeys m) : NoDupKeys (mapDelete m k) :=
  List.Nodup.sublist ((mapDelete_sublist m k).map Prod.fst) h

theorem noDupKeys_mapInsert_of_lookup_none {α : Type} {m : List (String × α)}
    {k : String} (v : α) (hnone : mapLookup m k = none) (h : NoDupKeys m) :
    NoDupKeys (mapInsert m k v) := by
  rw [mapInsert_of_lookup_none v hnone]
  unfold NoDupKeys at h ⊢
  rw [List.map_append]
  simp only [List.map_cons, List.map_nil]
  rw [List.nodup_append]
  exact ⟨h, List.nodup_singleton k,
    fun a ha => by
      simp only [List.mem_singleton]
      intro hc
      exact not_mem_keys_of_mapLookup_eq_none hnone (hc ▸ ha)⟩

theorem length_mapDelete_add_one {α : Type} {m : List (String × α)}
    {k : String} {v : α} (hnd : NoDupKeys m) (h : mapLookup m k = some v) :
    (mapDelete m k).length + 1 = m.length := by
  induction m with
  | nil => cases h
  | cons p rest ih =>
    unfold NoDupKeys at hnd
    simp only [List.map_cons, List.nodup_cons] at hnd
    simp only [mapLookup] at h
    by_cases hk : p.1 = k
    · rw [if_pos hk] at h
      have hnone : mapLookup rest k = none :=
        mapLookup_eq_none_of_not_mem_keys (hk ▸ hnd.1)
      simp [mapDelete, hk, mapDelete_of_lookup_none hnone]
    · rw [if_neg hk] at h
      simp only [mapDelete, if_neg hk, List.length_cons]
      rw [← ih hnd.2 h]

theorem length_mapInsert_of_lookup_none {α : Type} {m : List (String × α)}
    {k : String} (v : α) (h : mapLookup m k = none) :
    (mapInsert m k v).length = m.length + 1 := by
  rw [mapInsert_of_lookup_none v h]
  simp

theorem foldl_digits_none (l : List Char) :
    List.foldl (fun acc c => acc.bind fun a => (digitVal c).map
      fun d => 10 * a + d) none l = none := by
  induction l with
  | nil => rfl
  | cons c rest ih => exact ih

theorem parseDigits_append (l₁ l₂ : List Char) :
    parseDigits (l₁ ++ l₂) =
      (parseDigits l₁).bind fun a =>
        l₂.foldl (fun acc c => acc.bind fun a => (digitVal c).map
          fun d => 10 * a + d) (some a) := by
  unfold parseDigits
  rw [List.foldl_append]
  cases h : List.foldl (fun acc c => acc.bind fun a =>
      (digitVal c).map fun d => 10 * a + d) (some 0) l₁ with
  | none => simpa using foldl_digits_none l₂
  | some a => rfl

theorem digitVal_digitChar {d : Nat} (h : d < 10) :
    digitVal (digitChar d) = some d := by
  interval_cases d <;> rfl

theorem digitChar_ne_sign {d : Nat} (h : d < 10) :
    digitChar d ≠ '+' ∧ digitChar d ≠ '-' := by
  interval_cases d <;> exact ⟨by decide, by decide⟩

theorem parseDigits_natToDecCore {fuel n : Nat} (h : n < fuel) :
    parseDigits (natToDecCore fuel n) = some n := by
  induction fuel generalizing n with
  | zero => omega
  | succ fuel ih =>
    unfold natToDecCore
    by_cases hn : n < 10
    · rw [if_pos hn]
      simp [parseDigits, digitVal_digitChar hn]
    · rw [if_neg hn]
      have hdiv : n / 10 < fuel := by
        have h1 : n / 10 < n := Nat.div_lt_self (by omega) (by omega)
        omega
      rw [parseDigits_append, ih hdiv]
      simp only [Option.some_bind, List.foldl_cons, List.foldl_nil]
      rw [digitVal_digitChar (Nat.mod_lt n (by omega))]
      simp only [Option.some_bind, Option.map_some']
      congr 1
      omega

theorem parseDigits_natToDecChars (n : Nat) :
    parseDigits (natToDecChars n) = some n :=
  parseDigits_natToDecCore (Nat.lt_succ_self n)

theorem natToDecChars_ne_nil (n : Nat) : natToDecChars n ≠ [] := by
  unfold natToDecChars natToDecCore
  by_cases h : n < 10 <;> simp [h]

theorem natToDecCore_mem_digit {fuel n : Nat} :
    ∀ c ∈ natToDecCore fuel n, ∃ d, d < 10 ∧ c = digitChar d := by
  induction fuel generalizing n with
  | zero => intro c hc; simp [natToDecCore] at hc
  | succ fuel ih =>
    intro c hc
    unfold natToDecCore at hc
    by_cases h : n < 10
    · rw [if_pos h] at hc
      simp only [List.mem_singleton] at hc
      exact ⟨n, h, hc⟩
    · rw [if_neg h] at hc
      rcases List.mem_append.mp hc with hc | hc
      · exact ih c hc
      · simp only [List.mem_singleton] at hc
        exact ⟨n % 10, Nat.mod_lt n (by omega), hc⟩

/-- Printing an integer in Go's canonical decimal form and re-parsing it with
`SetString(·, 10)` round-trips. -/
theorem goSetString10_intToDecString (v : Int) :
    goSetString10 (intToDecString v) = some v := by
  cases v with
  | ofNat n =>
    obtain ⟨c, rest, hd⟩ := List.exists_cons_of_ne_nil (natToDecChars_ne_nil n)
    obtain ⟨d, hdlt, hcd⟩ :=
      natToDecCore_mem_digit c (hd ▸ List.mem_cons_self c rest)
    have hsign := digitChar_ne_sign hdlt
    have hc1 : c ≠ '+' := by rw [hcd]; exact hsign.1
    have hc2 : c ≠ '-' := by rw [hcd]; exact hsign.2
    have hrun : goSetString10 ⟨c :: rest⟩ =
        (if c = '+' then
          if rest = [] then none else (parseDigits rest).map fun a => (a : Int)
        else if c = '-' then
          if rest = [] then none else (parseDigits rest).map fun a => -(a : Int)
        else (parseDigits (c :: rest)).map fun a => (a : Int)) := rfl
    have h1 : intToDecString (Int.ofNat n) = ⟨c :: rest⟩ := by
      show (⟨natToDecChars n⟩ : String) = ⟨c :: rest⟩
      rw [hd]
    rw [h1, hrun, if_neg hc1, if_neg hc2, ← hd, parseDigits_natToDecChars]
    rfl
  | negSucc m =>
    have hrun : goSetString10 ⟨'-' :: natToDecChars (m + 1)⟩ =
        (if natToDecChars (m + 1) = [] then none
         else (parseDigits (natToDecChars (m + 1))).map
           fun n => -(n : Int)) := rfl
    show goSetString10 ⟨'-' :: natToDecChars (m + 1)⟩ = some (Int.negSucc m)
    rw [hrun, if_neg (natToDecChars_ne_nil (m + 1)),
      parseDigits_natToDecChars]
    simp [Int.negSucc_eq]

theorem intToDecString_ne_empty (v : Int) : intToDecString v ≠ "" := by
  intro h
  have hd : (intToDecString v).data = [] := by rw [h]
  cases v with
  | ofNat n => exact natToDecChars_ne_nil n hd
  | negSucc m => cases hd

/-- part_005's `BigIntString` also round-trips Go's canonical printing:
the printed form is never empty, so the empty-string default is not
taken. -/
theorem p005_BigIntString_intToDecString (v : Int) :
    P005.BigIntString (intToDecString v) = some v := by
  unfold P005.BigIntString
  rw [if_neg (intToDecString_ne_empty v)]
  exact goSetString10_intToDecString v

/-! ## Helper lemmas on list surgery -/

theorem not_mem_eraseIdx_of_nodup {α : Type} [DecidableEq α] {l : List α}
    {i : Nat} {a : α} (hnd : l.Nodup) (hget : l.get? i = some a) :
    a ∉ l.eraseIdx i := by
  induction l generalizing i with
  | nil => simp [List.get?] at hget
  | cons x rest ih =>
    rcases List.nodup_cons.mp hnd with ⟨hx, hrest⟩
    cases i with
    | zero =>
      simp only [List.get?] at hget
      injection hget with hget
      subst hget
      simpa [List.eraseIdx] using hx
    | succ j =>
      simp only [List.get?] at hget
      intro hmem
      simp only [List.eraseIdx, List.mem_cons] at hmem
      rcases hmem with rfl | hmem
      · exact hx (List.get?_mem hget)
      · exact ih hrest hget hmem

namespace ContractGo

theorem inv_supply {s : DefaultContract} (h : Inv s) :
    s.TotalTokens = intToDecString (s.TokenOwners.length : Int) := by
  unfold Inv InvB at h
  simp only [Bool.and_eq_true, decide_eq_true_eq] at h
  exact h.1.1.1.1.1.1

theorem inv_parse {s : DefaultContract} (h : Inv s) :
    goSetString10 s.TotalTokens = some (s.TokenOwners.length : Int) := by
  rw [inv_supply h]
  exact goSetString10_intToDecString _

theorem inv_entry {s : DefaultContract} (h : Inv s) {tid frm : String}
    (ho : mapLookup s.TokenOwners tid = some frm) :
    ∃ l idx, mapLookup s.OwnedTokens frm = some l
      ∧ mapLookup s.OwnedTokenIndex tid = some idx
      ∧ l.get? idx = some tid ∧ l.Nodup ∧ idx < l.length := by
  unfold Inv InvB at h
  simp only [Bool.and_eq_true, decide_eq_true_eq, List.all_eq_true] at h
  obtain ⟨⟨⟨⟨⟨⟨-, -⟩, hndo⟩, -⟩, hcons⟩, hlists⟩, -⟩ := h
  have hc := hcons _ (mapLookup_mem ho)
  simp only at hc
  cases hl : mapLookup s.OwnedTokens frm with
  | none => rw [hl] at hc; cases hidx : mapLookup s.OwnedTokenIndex tid <;>
      rw [hidx] at hc <;> cases hc
  | some l =>
    rw [hl] at hc
    cases hidx : mapLookup s.OwnedTokenIndex tid with
    | none => rw [hidx] at hc; cases hc
    | some idx =>
      rw [hidx] at hc
      simp only [decide_eq_true_eq] at hc
      have hmem := hlists _ (mapLookup_mem hl)
      simp only [Bool.and_eq_true, decide_eq_true_eq] at hmem
      obtain ⟨hlt, -⟩ := List.get?_eq_some.mp hc
      exact ⟨l, idx, rfl, rfl, hc, hmem.1.1, hlt⟩

end ContractGo

namespace ContractGo

theorem wf_empty (nm sym : String) : WF (emptyContract nm sym) := by
  refine ⟨by simp [NoDupKeys, emptyContract], ?_, rfl⟩
  intro t ht
  simp [emptyContract, mapLookup] at ht

theorem wf_parse {s : DefaultContract} (hw : WF s) :
    goSetString10 s.TotalTokens = some (s.TokenOwners.length : Int) := by
  rw [hw.2.2]
  exact goSetString10_intToDecString _

theorem mint_ok_shape {s s' : DefaultContract} {toAddr tid : String}
    (hw : WF s) (h : Mint s toAddr tid = .ok s') :
    s'.TokenOwners.length = s.TokenOwners.length + 1
    ∧ s'.TotalTokens = intToDecString ((s.TokenOwners.length : Int) + 1)
    ∧ WF s' := by
  unfold Mint addToken at h
  by_cases hex : (mapLookup s.TokenOwners tid).isSome
  · rw [if_pos hex] at h
    simp at h
  · rw [if_neg hex] at h
    simp only [wf_parse hw] at h
    injection h with h
    subst h
    have hnone : mapLookup s.TokenOwners tid = none :=
      Option.not_isSome_iff_eq_none.mp hex
    refine ⟨length_mapInsert_of_lookup_none _ hnone, rfl,
      noDupKeys_mapInsert_of_lookup_none _ hnone hw.1, ?_, ?_⟩
    · intro t ht
      by_cases htid : t = tid
      · subst htid
        simp [mapLookup_insert_self]
      · rw [show ∀ m : List (String × Nat), mapLookup (mapInsert m tid
          (((mapLookup s.OwnedTokens toAddr).getD []).length)) t
            = mapLookup m t from fun m =>
            mapLookup_insert_ne m _ (fun hc => htid hc.symm)] at ht
        rw [mapLookup_insert_ne _ _ (fun hc => htid hc.symm)]
        exact hw.2.1 t ht
    · show intToDecString ((s.TokenOwners.length : Int) + 1)
        = intToDecString (((mapInsert s.TokenOwners tid toAddr).length : Int))
      rw [length_mapInsert_of_lookup_none _ hnone]
      congr 1

theorem burn_ok_shape {s s' : DefaultContract} {tid : String}
    (hw : WF s) (h : Burn s tid = .ok s') :
    s'.TokenOwners.length + 1 = s.TokenOwners.length
    ∧ s'.TotalTokens = intToDecString ((s.TokenOwners.length : Int) - 1)
    ∧ WF s' := by
  unfold Burn at h
  cases ho : mapLookup s.TokenOwners tid with
  | none => rw [ho] at h; simp at h
  | some owner =>
    rw [ho] at h
    unfold removeToken at h
    simp only [wf_parse hw] at h
    cases hidx : mapLookup s.OwnedTokenIndex tid with
    | none => rw [hidx] at h; simp at h
    | some idx =>
      simp only [hidx] at h
      by_cases hlt : idx < ((mapLookup s.OwnedTokens owner).getD []).length
      · rw [if_pos hlt] at h
        injection h with h
        subst h
        have hpos : 0 < s.TokenOwners.length :=
          List.length_pos.mpr (List.ne_nil_of_mem (mapLookup_mem ho))
        refine ⟨length_mapDelete_add_one hw.1 ho, rfl,
          noDupKeys_mapDelete _ hw.1, ?_, ?_⟩
        · intro t ht
          by_cases htid : t = tid
          · subst htid
            rw [mapLookup_delete_self] at ht
            simp at ht
          · rw [mapLookup_delete_ne _ (fun hc => htid hc.symm)] at ht
            rw [mapLookup_delete_ne _ (fun hc => htid hc.symm)]
            exact hw.2.1 t ht
        · show intToDecString ((s.TokenOwners.length : Int) - 1)
            = intToDecString (((mapDelete s.TokenOwners tid).length : Int))
          have := length_mapDelete_add_one hw.1 ho
          congr 1
          omega
      · rw [if_neg hlt] at h
        simp at h

theorem transfer_ok_shape {s s' : DefaultContract} {frm toAddr tid : String}
    (hw : WF s) (h : Transfer s frm toAddr tid = .ok s') :
    s'.TokenOwners.length = s.TokenOwners.length
    ∧ s'.TotalTokens = s.TotalTokens
    ∧ WF s' := by
  unfold Transfer at h
  cases hidx : mapLookup s.OwnedTokenIndex tid with
  | none => rw [hidx] at h; simp at h
  | some idx =>
    simp only [hidx] at h
    cases hfl : mapLookup s.OwnedTokens frm with
    | none => rw [hfl] at h; simp at h
    | some l =>
      simp only [hfl] at h
      by_cases hlt : idx < l.length
      · rw [if_pos hlt] at h
        injection h with h
        subst h
        obtain ⟨o, ho⟩ := Option.isSome_iff_exists.mp
          (hw.2.1 tid (by rw [hidx]; rfl))
        have hlen : (mapDelete s.TokenOwners tid).length + 1
            = s.TokenOwners.length := length_mapDelete_add_one hw.1 ho
        have hlen2 : (mapInsert (mapDelete s.TokenOwners tid) tid
            toAddr).length = s.TokenOwners.length := by
          rw [length_mapInsert_of_lookup_none _ (mapLookup_delete_self _ _)]
          omega
        refine ⟨hlen2, rfl, ?_, ?_, ?_⟩
        · exact noDupKeys_mapInsert_of_lookup_none _
            (mapLookup_delete_self _ _) (noDupKeys_mapDelete _ hw.1)
        · intro t ht
          by_cases htid : t = tid
          · subst htid
            simp [mapLookup_insert_self]
          · rw [mapLookup_insert_ne _ _ (fun hc => htid hc.symm),
              mapLookup_delete_ne _ (fun hc => htid hc.symm)] at ht
            rw [mapLookup_insert_ne _ _ (fun hc => htid hc.symm),
              mapLookup_delete_ne _ (fun hc => htid hc.symm)]
            exact hw.2.1 t ht
        · show s.TotalTokens = _
          rw [hw.2.2, hlen2]
      · rw [if_neg hlt] at h
        simp at h

theorem reachable_wf {s : DefaultContract} (hs : Reachable s) : WF s := by
  induction hs with
  | init nm sym => exact wf_empty nm sym
  | mint _ h ih => exact (mint_ok_shape ih h).2.2
  | burn _ h ih => exact (burn_ok_shape ih h).2.2
  | transfer _ h ih => exact (transfer_ok_shape ih h).2.2

end ContractGo

/-! ## Claim theorems -/

/-- C4: for every loaded ledger state in which `tokenID` is already present
in `TokenOwners`, `Mint(to, tokenID)` returns `ErrAlreadyExists` and the
receiver is exactly the input state — none of `TokenOwners`, `OwnedTokens`,
`OwnedTokenIndex`, `TotalTokens` (nor any other field; the contract.go
revision carries no metadata field) is mutated, because `addToken` performs
the duplicate check before any write. -/
theorem mint_existing_fails_and_preserves_state
    (s : ContractGo.DefaultContract) (toAddr tid : String)
    (h : (mapLookup s.TokenOwners tid).isSome) :
    ContractGo.Mint s toAddr tid = .err .alreadyExists s := by
  unfold ContractGo.Mint ContractGo.addToken
  rw [if_pos h]

/-- C4 witness: minting `"t"` again right after it was assigned to `"a"`
fails with `ErrAlreadyExists` and leaves the state unchanged. -/
theorem mint_existing_fails_and_preserves_state_witness :
    (mapLookup (ContractGo.DefaultContract.mk [("t", "a")] [("a", ["t"])]
      [("t", 0)] "1" "n" "s").TokenOwners "t").isSome
    ∧ ContractGo.Mint (ContractGo.DefaultContract.mk [("t", "a")]
        [("a", ["t"])] [("t", 0)] "1" "n" "s") "b" "t"
      = .err .alreadyExists (ContractGo.DefaultContract.mk [("t", "a")]
        [("a", ["t"])] [("t", 0)] "1" "n" "s") :=
  ⟨by decide,
   mint_existing_fails_and_preserves_state _ "b" "t" (by decide)⟩

/-- C5: for every loaded ledger state in which `tokenID` is absent from
`TokenOwners`, `Burn(tokenID)` returns `ErrNoExist` from the `OwnerOf`
lookup before anything is written: the receiver equals the input state, so
in particular `TotalTokens` is not decremented and cannot become
negative. -/
theorem burn_absent_fails_and_preserves_state
    (s : ContractGo.DefaultContract) (tid : String)
    (h : mapLookup s.TokenOwners tid = none) :
    ContractGo.Burn s tid = .err .noExist s := by
  unfold ContractGo.Burn
  rw [h]

/-- C5 witness: burning the never-minted token `"t"` on the empty ledger
fails with `ErrNoExist` and is a no-op. -/
theorem burn_absent_fails_and_preserves_state_witness :
    mapLookup (ContractGo.emptyContract "n" "s").TokenOwners "t" = none
    ∧ ContractGo.Burn (ContractGo.emptyContract "n" "s") "t"
      = .err .noExist (ContractGo.emptyContract "n" "s") :=
  ⟨by decide, burn_absent_fails_and_preserves_state _ "t" (by decide)⟩

/-- C6 (amended part): for every loaded ledger state and every `tokenID`
with no entry in `OwnedTokenIndex`, contract.go `Transfer(from, to,
tokenID)` returns `ErrNoExist` with the receiver exactly equal to the input
state — both owners' balances and `TotalTokens` are untouched and there is
no partial mutation. -/
theorem transfer_absent_token_fails_and_preserves_state
    (s : ContractGo.DefaultContract) (frm toAddr tid : String)
    (h : mapLookup s.OwnedTokenIndex tid = none) :
    ContractGo.Transfer s frm toAddr tid = .err .noExist s := by
  unfold ContractGo.Transfer
  rw [h]

/-- C6 witness: transferring the non-existent token `"t"` on the empty
ledger fails with `ErrNoExist` and mutates nothing. -/
theorem transfer_absent_token_fails_and_preserves_state_witness :
    mapLookup (ContractGo.emptyContract "n" "s").OwnedTokenIndex "t" = none
    ∧ ContractGo.Transfer (ContractGo.emptyContract "n" "s") "a" "b" "t"
      = .err .noExist (ContractGo.emptyContract "n" "s") :=
  ⟨by decide,
   transfer_absent_token_fails_and_preserves_state _ "a" "b" "t" (by decide)⟩

/-- C6 counterexample: in the part_005 revision, `Transfer` is
`removeToken` followed by an unconditional `addToken`, so transferring the
token `7`, which is absent from `ownedTokenIndex`, on an empty ledger
signals nothing and silently mints the token to the target address: `to`'s
balance rises from 0 to 1, the token appears in `tokenOwners`, and the
total-supply counter becomes `"1"` — falsifying the claim that both
owners' balances and the total supply are left unchanged. -/
theorem p005_transfer_absent_token_mints_cex :
    (P005.Transfer (P005.DefaultContract.mk "" "" [] [] [] "" [])
        "a" "b" 7).okState?.map
      (fun c => (P005.BalanceOf c "b", c.TotalTokens,
        mapLookup c.TokenOwners "7"))
      = some (1, "1", some "b")
    ∧ P005.BalanceOf (P005.DefaultContract.mk "" "" [] [] [] "" []) "b" = 0 :=
  ⟨rfl, rfl⟩

/-- C8 (amended part): `BalanceOf(owner)` always returns the length of the
owner's token list (0 when the owner is unknown); the nft.go revision has
no error channel at all, while the contract.go revision signals
`ErrNoExist` (alongside the zero count) exactly when the owner has no entry
in `OwnedTokens`. -/
theorem balanceOf_characterization (s : ContractGo.DefaultContract)
    (ctx : NftGo.Context) (c5 : P005.DefaultContract) (owner : String) :
    (ContractGo.BalanceOf s owner).1
        = ((mapLookup s.OwnedTokens owner).getD []).length
    ∧ ((ContractGo.BalanceOf s owner).2 = none
        ↔ (mapLookup s.OwnedTokens owner).isSome)
    ∧ NftGo.BalanceOf ctx owner
        = ((mapLookup ctx.OwnedTokens owner).getD []).length
    ∧ P005.BalanceOf c5 owner
        = ((mapLookup c5.OwnedTokens owner).getD []).length := by
  refine ⟨?_, ?_, rfl, rfl⟩ <;>
    · unfold ContractGo.BalanceOf ContractGo.TokensOwnedBy
      cases mapLookup s.OwnedTokens owner <;> simp

/-- C8 counterexample: on a loaded ledger whose `OwnedTokens` map is empty,
contract.go `BalanceOf("alice")` returns the pair `(0, ErrNoExist)` — it
signals an error for an unknown owner (exactly what the accompanying test
table expects), falsifying the claim that `balanceOf` never fails. -/
theorem balanceOf_unknown_owner_errors_cex :
    ContractGo.BalanceOf
        (ContractGo.DefaultContract.mk [] [] [] "0" "n" "s") "alice"
      = (0, some GoErr.noExist) := rfl

/-- C9 (amended part): in both revisions that implement it,
`TokenOfOwnerByIndex(owner, i)` equals the revision's own `BigIntString`
parse of the `i`-th element of the owner's list — nft.go's strict
`SetString(·, 10)`, part_005's variant that first defaults an
empty-string id to `"0"`: it succeeds iff `i < balanceOf(owner)` AND that
parse succeeds; an unknown owner gives the empty list, hence failure for
every `i`. -/
theorem tokenOfOwnerByIndex_characterization (ctx : NftGo.Context)
    (c5 : P005.DefaultContract) (owner : String) (idx : Nat) :
    NftGo.TokenOfOwnerByIndex ctx owner idx
      = (((mapLookup ctx.OwnedTokens owner).getD []).get? idx).bind
          goSetString10
    ∧ P005.TokenOfOwnerByIndex c5 owner idx
      = (((mapLookup c5.OwnedTokens owner).getD []).get? idx).bind
          P005.BigIntString := by
  constructor
  · unfold NftGo.TokenOfOwnerByIndex
    cases mapLookup ctx.OwnedTokens owner with
    | none => simp
    | some tokens =>
      by_cases h : idx < tokens.length
      · simp [h]
      · simp [h, List.getElem?_eq_none (Nat.le_of_not_lt h)]
  · unfold P005.TokenOfOwnerByIndex
    cases mapLookup c5.OwnedTokens owner with
    | none => simp
    | some tokens =>
      by_cases h : idx < tokens.length
      · simp [h]
      · simp [h, List.getElem?_eq_none (Nat.le_of_not_lt h)]

/-- C9 counterexample: with owner `"a"` holding the single, non-numeric
token id `"x"`, the lookup at index 0 is in range (`0 < balanceOf("a") =
1`) yet returns the unsuccessful result, because `BigIntString("x")` fails
— falsifying the claim that the unsuccessful result is signalled exactly
when `i ≥ balanceOf(owner)`.  The parse is moreover revision-specific: on
an in-range empty-string id, part_005's `BigIntString` defaults the input
to `"0"` and the lookup succeeds with 0 where nft.go's fails. -/
theorem tokenOfOwnerByIndex_in_range_failure_cex :
    NftGo.TokenOfOwnerByIndex
        (NftGo.Context.mk [] [("a", ["x"])] [] "0" []) "a" 0 = none
    ∧ 0 < NftGo.BalanceOf (NftGo.Context.mk [] [("a", ["x"])] [] "0" []) "a"
    ∧ P005.TokenOfOwnerByIndex
        (P005.DefaultContract.mk "" "" [] [("a", [""])] [] "0" []) "a" 0
      = some 0
    ∧ NftGo.TokenOfOwnerByIndex
        (NftGo.Context.mk [] [("a", [""])] [] "0" []) "a" 0 = none :=
  ⟨rfl, by decide, rfl, rfl⟩

/-- C10: the removal step of burn and transfer slices the from-owner's list
at the stored `ownedTokenIndex` entry without a bounds check: whenever that
stored index is at least the length of `OwnedTokens[from]` (a stale index
after a prior mid-list removal, or a `from` that does not hold the token),
both `removeToken` (used by `Burn`) and `Transfer` hit an out-of-range
slice expression and panic instead of returning an error. -/
theorem removal_unchecked_index_panics
    (s : ContractGo.DefaultContract) (frm toAddr tid : String) (idx : Nat)
    (l : List String)
    (hidx : mapLookup s.OwnedTokenIndex tid = some idx)
    (hfrm : mapLookup s.OwnedTokens frm = some l)
    (hlen : l.length ≤ idx)
    (hparse : (goSetString10 s.TotalTokens).isSome) :
    ContractGo.removeToken s frm tid = .panicked
    ∧ ContractGo.Transfer s frm toAddr tid = .panicked := by
  obtain ⟨v, hv⟩ := Option.isSome_iff_exists.mp hparse
  constructor
  · unfold ContractGo.removeToken
    rw [hv]
    simp only [hidx, hfrm, Option.getD_some]
    rw [if_neg (Nat.not_lt.mpr hlen)]
  · unfold ContractGo.Transfer
    simp only [hidx, hfrm]
    rw [if_neg (Nat.not_lt.mpr hlen)]

/-- C10 witness: with `tokenOwner = ["t" -> "a"]`, `ownedTokens = ["a" ->
["t"]]` but a stale stored index 5 for `"t"`, both removal paths panic. -/
theorem removal_unchecked_index_panics_witness :
    mapLookup (ContractGo.DefaultContract.mk [("t", "a")] [("a", ["t"])]
        [("t", 5)] "1" "n" "s").OwnedTokenIndex "t" = some 5
    ∧ (ContractGo.removeToken (ContractGo.DefaultContract.mk [("t", "a")]
        [("a", ["t"])] [("t", 5)] "1" "n" "s") "a" "t" = .panicked
      ∧ ContractGo.Transfer (ContractGo.DefaultContract.mk [("t", "a")]
        [("a", ["t"])] [("t", 5)] "1" "n" "s") "a" "b" "t" = .panicked) :=
  ⟨by decide,
   removal_unchecked_index_panics _ "a" "b" "t" 5 ["t"]
     (by decide) (by decide) (by decide) (by decide)⟩

/-- C2 failing-input evaluation: starting from the invariant-satisfying
state where `"a"` owns `["t1", "t2"]` with stored indices 0 and 1, a
successful `Burn("t1")` leaves `"t2"` owned by `"a"` at list position 0
while its stored `ownedTokenIndex` entry is still 1: the code never
recomputes the indices of the shifted entries, so invariant I3 — the claim
that `ownedTokenIndex[t]` always equals the current position of `t` — is
violated right after a removal of a non-last element. -/
theorem burn_midlist_leaves_stale_index_cex :
    (ContractGo.Burn (ContractGo.DefaultContract.mk
        [("t1", "a"), ("t2", "a")] [("a", ["t1", "t2"])]
        [("t1", 0), ("t2", 1)] "2" "n" "s") "t1").okState?.map
      (fun c => (mapLookup c.OwnedTokenIndex "t2",
        mapLookup c.OwnedTokens "a", mapLookup c.TokenOwners "t2",
        c.TotalTokens))
      = some (some 1, some ["t2"], some "a", "1")
    ∧ (["t2"].get? 1 ≠ some "t2") :=
  ⟨rfl, by decide⟩

/-- C1 counterexample: two independent divergences falsify the claim as
stated.  (a) In the nft.go revision, a successful `Transfer("a", "b", 1)`
from the invariant-satisfying one-token ledger performs the move correctly
(`"b"` becomes the owner, fresh index 0) but sets `TotalTokens` from `"1"`
to `"2"` — the total-supply counter is incremented, not unchanged.
(b) In the contract.go revision, the self-transfer `Transfer("a", "a",
"t")` on the invariant-satisfying state where `"a"` owns `["t"]` succeeds
(`from ∈ ownedTokens`, token indexed), but stores index 1 — the balance
read before the removal — for a token whose position after the move is 0,
so the fresh-index-equals-balance-prior-to-the-append clause (the token's
new position) fails whenever `from = to`. -/
theorem transfer_totalSupply_and_self_index_cex :
    (NftGo.Transfer (NftGo.Context.mk [("1", "a")] [("a", ["1"])]
        [("1", 0)] "1" []) "a" "b" 1).okState?.map
      (fun c => (c.TotalTokens, mapLookup c.TokenOwners "1",
        mapLookup c.OwnedTokens "b", mapLookup c.OwnedTokenIndex "1"))
      = some ("2", some "b", some ["1"], some 0)
    ∧ (ContractGo.Transfer (ContractGo.DefaultContract.mk [("t", "a")]
        [("a", ["t"])] [("t", 0)] "1" "n" "s") "a" "a" "t").okState?.map
      (fun c => (mapLookup c.OwnedTokenIndex "t",
        mapLookup c.OwnedTokens "a", mapLookup c.TokenOwners "t",
        c.TotalTokens))
      = some (some 1, some ["t"], some "a", "1")
    ∧ (["t"].get? 1 ≠ some "t") :=
  ⟨rfl, rfl, by decide⟩

/-- C3 counterexample: in the part_005 revision, token ids are reused after
a burn.  The successful operation sequence `Mint("a"); Mint("a"); Burn(1);
Mint("b")` from the empty ledger reaches a state with `TotalTokens = "2"`
but only one entry in `tokenOwner` (the re-minted id `"2"` overwrote the
live entry, and the token now sits in both owners' lists): the reachable
invariant `totalSupply = |tokenOwner|` is falsified. -/
theorem p005_mint_reuse_breaks_supply_cex :
    ((P005.Mint (P005.DefaultContract.mk "" "" [] [] [] "" [])
        "a").okState?.bind fun s1 =>
      (P005.Mint s1 "a").okState?.bind fun s2 =>
      (P005.Burn s2 1).okState?.bind fun s3 =>
      (P005.Mint s3 "b").okState?).map
      (fun c => (c.TotalTokens, c.TokenOwners.length, c.TokenOwners,
        c.OwnedTokens))
      = some ("2", 1, [("2", "b")], [("a", ["2"]), ("b", ["2"])]) := rfl

/-- C1 (amended part): on every loaded ledger state satisfying the
invariants, with `tokenID` owned by `from` (hence present in
`ownedTokenIndex`) and `from ≠ to`, a transfer succeeds and moves the
token in both revisions that implement the spec's checked transfer.
contract.go: the owner mapping now sends the token to `to`; it is removed
from `from`'s list — later elements shifting down by one (`eraseIdx`), the
`from` key dropped when the list empties; it is appended to `to`'s list;
its fresh `ownedTokenIndex` entry equals `to`'s balance computed before
the append (its new position, since `from ≠ to`); and `TotalTokens` is
exactly unchanged.  part_005 (transfer = `removeToken` then `addToken`,
stated over the invariant facts its checks consult): the same move, except
that the emptied `from` key is kept mapped to the shorter list, and the
counter is decremented then re-incremented, so its parsed value is
unchanged.  The restriction `from ≠ to` is forced by the self-transfer
counterexample. -/
theorem transfer_moves_token :
    (∀ (s : ContractGo.DefaultContract) (frm toAddr tid : String),
      ContractGo.Inv s → mapLookup s.TokenOwners tid = some frm →
      frm ≠ toAddr →
      ∃ l idx s', mapLookup s.OwnedTokens frm = some l
        ∧ mapLookup s.OwnedTokenIndex tid = some idx
        ∧ ContractGo.Transfer s frm toAddr tid = .ok s'
        ∧ mapLookup s'.TokenOwners tid = some toAddr
        ∧ mapLookup s'.OwnedTokens frm
            = (if l.eraseIdx idx = [] then none else some (l.eraseIdx idx))
        ∧ tid ∉ l.eraseIdx idx
        ∧ mapLookup s'.OwnedTokens toAddr
            = some (((mapLookup s.OwnedTokens toAddr).getD []) ++ [tid])
        ∧ mapLookup s'.OwnedTokenIndex tid
            = some ((ContractGo.BalanceOf s toAddr).1)
        ∧ s'.TotalTokens = s.TotalTokens)
    ∧ (∀ (c : P005.DefaultContract) (frm toAddr : String) (tokenID : Int)
        (l : List String) (idx : Nat) (v : Int),
      P005.BigIntString c.TotalTokens = some v →
      mapLookup c.OwnedTokenIndex (intToDecString tokenID) = some idx →
      mapLookup c.OwnedTokens frm = some l →
      l.get? idx = some (intToDecString tokenID) →
      l.Nodup →
      frm ≠ toAddr →
      ∃ c', P005.Transfer c frm toAddr tokenID = .ok c'
        ∧ mapLookup c'.TokenOwners (intToDecString tokenID) = some toAddr
        ∧ mapLookup c'.OwnedTokens frm = some (l.eraseIdx idx)
        ∧ intToDecString tokenID ∉ l.eraseIdx idx
        ∧ mapLookup c'.OwnedTokens toAddr
            = some (((mapLookup c.OwnedTokens toAddr).getD [])
              ++ [intToDecString tokenID])
        ∧ mapLookup c'.OwnedTokenIndex (intToDecString tokenID)
            = some (P005.BalanceOf c toAddr)
        ∧ P005.BigIntString c'.TotalTokens
            = P005.BigIntString c.TotalTokens) := by
  constructor
  · intro s frm toAddr tid hinv howner hne
    obtain ⟨l, idx, hl, hidx, hget, hnodup, hlt⟩ :=
      ContractGo.inv_entry hinv howner
    set l' := l.eraseIdx idx with hl'
    set owd1 := mapInsert s.OwnedTokens frm l' with howd1
    set owd2 := if l' = [] then mapDelete owd1 frm else owd1 with howd2
    have hlook2 : mapLookup owd2 toAddr = mapLookup s.OwnedTokens toAddr := by
      rw [howd2]
      by_cases hemp : l' = []
      · rw [if_pos hemp, mapLookup_delete_ne _ hne, howd1,
          mapLookup_insert_ne _ _ hne]
      · rw [if_neg hemp, howd1, mapLookup_insert_ne _ _ hne]
    refine ⟨l, idx,
      { s with
        TokenOwners := mapInsert (mapDelete s.TokenOwners tid) tid toAddr
        OwnedTokens := mapInsert owd2 toAddr
          (((mapLookup owd2 toAddr).getD []) ++ [tid])
        OwnedTokenIndex := mapInsert (mapDelete s.OwnedTokenIndex tid) tid
          (((mapLookup s.OwnedTokens toAddr).getD []).length) },
      hl, hidx, ?_, ?_, ?_, ?_, ?_, ?_, ?_⟩
    · unfold ContractGo.Transfer
      simp only [hidx, hl]
      rw [if_pos hlt]
    · exact mapLookup_insert_self _ _ _
    · show mapLookup (mapInsert owd2 toAddr _) frm = _
      rw [mapLookup_insert_ne _ _ (Ne.symm hne), howd2]
      by_cases hemp : l' = []
      · rw [if_pos hemp, if_pos hemp, mapLookup_delete_self]
      · rw [if_neg hemp, if_neg hemp, howd1, mapLookup_insert_self]
    · exact not_mem_eraseIdx_of_nodup hnodup hget
    · rw [mapLookup_insert_self, hlook2]
    · rw [mapLookup_insert_self]
      have : (ContractGo.BalanceOf s toAddr).1
          = ((mapLookup s.OwnedTokens toAddr).getD []).length := by
        unfold ContractGo.BalanceOf ContractGo.TokensOwnedBy
        cases mapLookup s.OwnedTokens toAddr <;> simp
      rw [this]
    · rfl
  · intro c frm toAddr tokenID l idx v hparse hidx hl hget hnodup hne
    have hlt : idx < l.length := (List.get?_eq_some.mp hget).1
    have hT : P005.Transfer c frm toAddr tokenID = .ok
        { c with
          TokenOwners := mapInsert (mapDelete c.TokenOwners
            (intToDecString tokenID)) (intToDecString tokenID) toAddr
          OwnedTokens := mapInsert
            (mapInsert c.OwnedTokens frm (l.eraseIdx idx)) toAddr
            (((mapLookup (mapInsert c.OwnedTokens frm (l.eraseIdx idx))
              toAddr).getD []) ++ [intToDecString tokenID])
          OwnedTokenIndex := mapInsert (mapDelete c.OwnedTokenIndex
            (intToDecString tokenID)) (intToDecString tokenID)
            (((mapLookup (mapInsert c.OwnedTokens frm (l.eraseIdx idx))
              toAddr).getD []).length)
          TotalTokens := intToDecString (v - 1 + 1) } := by
      unfold P005.Transfer P005.removeToken P005.addToken
      simp only [hparse, hidx, hl, Option.getD_some, if_pos hlt,
        p005_BigIntString_intToDecString]
    have hlk : mapLookup (mapInsert c.OwnedTokens frm (l.eraseIdx idx))
        toAddr = mapLookup c.OwnedTokens toAddr :=
      mapLookup_insert_ne _ _ hne
    refine ⟨_, hT, ?_, ?_, ?_, ?_, ?_, ?_⟩
    · exact mapLookup_insert_self _ _ _
    · show mapLookup (mapInsert _ toAddr _) frm = _
      rw [mapLookup_insert_ne _ _ (Ne.symm hne), mapLookup_insert_self]
    · exact not_mem_eraseIdx_of_nodup hnodup hget
    · rw [mapLookup_insert_self, hlk]
    · rw [mapLookup_insert_self, hlk]
      rfl
    · show P005.BigIntString (intToDecString (v - 1 + 1)) = _
      rw [p005_BigIntString_intToDecString, hparse]
      congr 1
      omega

/-- C1 witness: on the invariant-satisfying one-token ledger, transferring
token `"1"` from `"a"` to `"b"` succeeds with all the stated effects, in
the contract.go revision and in the part_005 revision. -/
theorem transfer_moves_token_witness :
    ContractGo.Inv (ContractGo.DefaultContract.mk [("1", "a")]
      [("a", ["1"])] [("1", 0)] "1" "n" "s")
    ∧ (∃ l idx s',
        mapLookup (ContractGo.DefaultContract.mk [("1", "a")] [("a", ["1"])]
          [("1", 0)] "1" "n" "s").OwnedTokens "a" = some l
        ∧ mapLookup (ContractGo.DefaultContract.mk [("1", "a")]
            [("a", ["1"])] [("1", 0)] "1" "n" "s").OwnedTokenIndex "1"
          = some idx
        ∧ ContractGo.Transfer (ContractGo.DefaultContract.mk [("1", "a")]
            [("a", ["1"])] [("1", 0)] "1" "n" "s") "a" "b" "1" = .ok s'
        ∧ mapLookup s'.TokenOwners "1" = some "b"
        ∧ mapLookup s'.OwnedTokens "a"
            = (if l.eraseIdx idx = [] then none else some (l.eraseIdx idx))
        ∧ "1" ∉ l.eraseIdx idx
        ∧ mapLookup s'.OwnedTokens "b"
            = some (((mapLookup (ContractGo.DefaultContract.mk [("1", "a")]
                [("a", ["1"])] [("1", 0)] "1" "n" "s").OwnedTokens
                "b").getD []) ++ ["1"])
        ∧ mapLookup s'.OwnedTokenIndex "1"
            = some ((ContractGo.BalanceOf (ContractGo.DefaultContract.mk
                [("1", "a")] [("a", ["1"])] [("1", 0)] "1" "n" "s") "b").1)
        ∧ s'.TotalTokens = (ContractGo.DefaultContract.mk [("1", "a")]
            [("a", ["1"])] [("1", 0)] "1" "n" "s").TotalTokens)
    ∧ (∃ c', P005.Transfer (P005.DefaultContract.mk "" "" [("1", "a")]
          [("a", ["1"])] [("1", 0)] "1" []) "a" "b" 1 = .ok c'
        ∧ mapLookup c'.TokenOwners (intToDecString 1) = some "b"
        ∧ mapLookup c'.OwnedTokens "a" = some (["1"].eraseIdx 0)
        ∧ intToDecString 1 ∉ ["1"].eraseIdx 0
        ∧ mapLookup c'.OwnedTokens "b"
            = some (((mapLookup (P005.DefaultContract.mk "" "" [("1", "a")]
                [("a", ["1"])] [("1", 0)] "1" []).OwnedTokens "b").getD [])
              ++ [intToDecString 1])
        ∧ mapLookup c'.OwnedTokenIndex (intToDecString 1)
            = some (P005.BalanceOf (P005.DefaultContract.mk "" ""
                [("1", "a")] [("a", ["1"])] [("1", 0)] "1" []) "b")
        ∧ P005.BigIntString c'.TotalTokens
            = P005.BigIntString (P005.DefaultContract.mk "" "" [("1", "a")]
                [("a", ["1"])] [("1", 0)] "1" []).TotalTokens) :=
  ⟨by decide,
   transfer_moves_token.1 _ "a" "b" "1" (by decide) (by decide) (by decide),
   transfer_moves_token.2 _ "a" "b" 1 ["1"] 0 1 (by decide) (by decide)
     (by decide) (by decide) (by decide) (by decide)⟩

/-- C7 (amended part): on every loaded contract.go state satisfying the
ledger invariants in which `tokenID` is present with owner `o` and stored
index `idx`, `Burn(tokenID)` succeeds; it removes the token from
`TokenOwners`, removes the element at `idx` from `o`'s list with the later
elements shifting down by one (`eraseIdx`), drops the key `o` entirely when
the list becomes empty, removes the token from `OwnedTokenIndex`, and
decrements the parsed total-supply counter by exactly one. -/
theorem burn_removes_token (s : ContractGo.DefaultContract)
    (tid o : String) (idx : Nat) (hinv : ContractGo.Inv s)
    (howner : mapLookup s.TokenOwners tid = some o)
    (hidx : mapLookup s.OwnedTokenIndex tid = some idx) :
    ∃ l s', mapLookup s.OwnedTokens o = some l
      ∧ l.get? idx = some tid
      ∧ ContractGo.Burn s tid = .ok s'
      ∧ mapLookup s'.TokenOwners tid = none
      ∧ mapLookup s'.OwnedTokens o
          = (if l.eraseIdx idx = [] then none else some (l.eraseIdx idx))
      ∧ tid ∉ l.eraseIdx idx
      ∧ mapLookup s'.OwnedTokenIndex tid = none
      ∧ goSetString10 s'.TotalTokens
          = some ((s.TokenOwners.length : Int) - 1) := by
  obtain ⟨l, idx', hl, hidx', hget, hnodup, hlt⟩ :=
    ContractGo.inv_entry hinv howner
  rw [hidx] at hidx'
  injection hidx' with hidx'
  subst hidx'
  set l' := l.eraseIdx idx with hl'
  set owd1 := mapInsert s.OwnedTokens o l' with howd1
  refine ⟨l,
    { s with
      TokenOwners := mapDelete s.TokenOwners tid
      OwnedTokens := if l' = [] then mapDelete owd1 o else owd1
      OwnedTokenIndex := mapDelete s.OwnedTokenIndex tid
      TotalTokens := intToDecString ((s.TokenOwners.length : Int) - 1) },
    hl, hget, ?_, ?_, ?_, ?_, ?_, ?_⟩
  · unfold ContractGo.Burn
    rw [howner]
    unfold ContractGo.removeToken
    rw [ContractGo.inv_parse hinv]
    simp only [hidx, hl, Option.getD_some]
    rw [if_pos hlt]
  · exact mapLookup_delete_self _ _
  · show mapLookup (if l' = [] then mapDelete owd1 o else owd1) o = _
    by_cases hemp : l' = []
    · rw [if_pos hemp, if_pos hemp, mapLookup_delete_self]
    · rw [if_neg hemp, if_neg hemp, howd1, mapLookup_insert_self]
  · exact not_mem_eraseIdx_of_nodup hnodup hget
  · exact mapLookup_delete_self _ _
  · exact goSetString10_intToDecString _

/-- C7 witness: burning the sole token `"1"` of owner `"a"` removes it from
all three maps, drops the emptied owner key, and decrements the counter to
zero. -/
theorem burn_removes_token_witness :
    ContractGo.Inv (ContractGo.DefaultContract.mk [("1", "a")]
      [("a", ["1"])] [("1", 0)] "1" "n" "s")
    ∧ (∃ l s', mapLookup (ContractGo.DefaultContract.mk [("1", "a")]
          [("a", ["1"])] [("1", 0)] "1" "n" "s").OwnedTokens "a" = some l
        ∧ l.get? 0 = some "1"
        ∧ ContractGo.Burn (ContractGo.DefaultContract.mk [("1", "a")]
            [("a", ["1"])] [("1", 0)] "1" "n" "s") "1" = .ok s'
        ∧ mapLookup s'.TokenOwners "1" = none
        ∧ mapLookup s'.OwnedTokens "a"
            = (if l.eraseIdx 0 = [] then none else some (l.eraseIdx 0))
        ∧ "1" ∉ l.eraseIdx 0
        ∧ mapLookup s'.OwnedTokenIndex "1" = none
        ∧ goSetString10 s'.TotalTokens
            = some (((ContractGo.DefaultContract.mk [("1", "a")]
                [("a", ["1"])] [("1", 0)] "1" "n"
                "s").TokenOwners.length : Int) - 1)) :=
  ⟨by decide,
   burn_removes_token _ "1" "a" 0 (by decide) (by decide) (by decide)⟩

/-- C3 (amended part): on the contract.go ledger, in every state reachable
from the empty ledger by successful operations, `TotalTokens` is the
canonical decimal form of the number of entries of the `TokenOwners` map;
from such a state every successful `Mint` increments both by one, every
successful `Burn` decrements both by one, and a successful `Transfer`
leaves the `TotalTokens` string and the entry count exactly unchanged. -/
theorem totalSupply_eq_tokenOwner_card (s : ContractGo.DefaultContract)
    (hs : ContractGo.Reachable s) :
    s.TotalTokens = intToDecString (s.TokenOwners.length : Int)
    ∧ goSetString10 s.TotalTokens = some (s.TokenOwners.length : Int)
    ∧ (∀ toAddr tid s', ContractGo.Mint s toAddr tid = .ok s' →
        s'.TokenOwners.length = s.TokenOwners.length + 1
        ∧ s'.TotalTokens = intToDecString ((s.TokenOwners.length : Int) + 1))
    ∧ (∀ tid s', ContractGo.Burn s tid = .ok s' →
        s'.TokenOwners.length + 1 = s.TokenOwners.length
        ∧ s'.TotalTokens = intToDecString ((s.TokenOwners.length : Int) - 1))
    ∧ (∀ frm toAddr tid s', ContractGo.Transfer s frm toAddr tid = .ok s' →
        s'.TotalTokens = s.TotalTokens
        ∧ s'.TokenOwners.length = s.TokenOwners.length) := by
  have hw := ContractGo.reachable_wf hs
  refine ⟨hw.2.2, ContractGo.wf_parse hw, ?_, ?_, ?_⟩
  · intro toAddr tid s' h
    have hm := ContractGo.mint_ok_shape hw h
    exact ⟨hm.1, hm.2.1⟩
  · intro tid s' h
    have hb := ContractGo.burn_ok_shape hw h
    exact ⟨hb.1, hb.2.1⟩
  · intro frm toAddr tid s' h
    have ht := ContractGo.transfer_ok_shape hw h
    exact ⟨ht.2.1, ht.1⟩

/-- C3 witness: the two-token state reached by `Mint("a","t1");
Mint("a","t2")` satisfies the counted-supply equation, and from it a mint,
a burn and a transfer change the counter by +1, -1 and 0 respectively. -/
theorem totalSupply_eq_tokenOwner_card_witness :
    (ContractGo.DefaultContract.mk [("t1", "a"), ("t2", "a")]
      [("a", ["t1", "t2"])] [("t1", 0), ("t2", 1)] "2" "n" "s").TotalTokens
      = intToDecString (((ContractGo.DefaultContract.mk
        [("t1", "a"), ("t2", "a")] [("a", ["t1", "t2"])]
        [("t1", 0), ("t2", 1)] "2" "n" "s").TokenOwners.length : Int))
    ∧ ((ContractGo.DefaultContract.mk [("t1", "a"), ("t2", "a"), ("t3", "b")]
        [("a", ["t1", "t2"]), ("b", ["t3"])]
        [("t1", 0), ("t2", 1), ("t3", 0)] "3" "n" "s").TokenOwners.length
      = (ContractGo.DefaultContract.mk [("t1", "a"), ("t2", "a")]
        [("a", ["t1", "t2"])] [("t1", 0), ("t2", 1)] "2" "n"
        "s").TokenOwners.length + 1)
    ∧ ((ContractGo.DefaultContract.mk [("t2", "a")] [("a", ["t2"])]
        [("t2", 1)] "1" "n" "s").TokenOwners.length + 1
      = (ContractGo.DefaultContract.mk [("t1", "a"), ("t2", "a")]
        [("a", ["t1", "t2"])] [("t1", 0), ("t2", 1)] "2" "n"
        "s").TokenOwners.length)
    ∧ ((ContractGo.DefaultContract.mk [("t2", "a"), ("t1", "b")]
        [("a", ["t2"]), ("b", ["t1"])] [("t2", 1), ("t1", 0)] "2" "n"
        "s").TotalTokens
      = (ContractGo.DefaultContract.mk [("t1", "a"), ("t2", "a")]
        [("a", ["t1", "t2"])] [("t1", 0), ("t2", 1)] "2" "n"
        "s").TotalTokens) := by
  have h1 : ContractGo.Mint (ContractGo.emptyContract "n" "s") "a" "t1"
      = .ok (ContractGo.DefaultContract.mk [("t1", "a")] [("a", ["t1"])]
        [("t1", 0)] "1" "n" "s") := by decide
  have h2 : ContractGo.Mint (ContractGo.DefaultContract.mk [("t1", "a")]
      [("a", ["t1"])] [("t1", 0)] "1" "n" "s") "a" "t2"
      = .ok (ContractGo.DefaultContract.mk [("t1", "a"), ("t2", "a")]
        [("a", ["t1", "t2"])] [("t1", 0), ("t2", 1)] "2" "n" "s") := by
    decide
  have hr : ContractGo.Reachable (ContractGo.DefaultContract.mk
      [("t1", "a"), ("t2", "a")] [("a", ["t1", "t2"])]
      [("t1", 0), ("t2", 1)] "2" "n" "s") :=
    ContractGo.Reachable.mint
      (ContractGo.Reachable.mint (ContractGo.Reachable.init "n" "s") h1) h2
  have h := totalSupply_eq_tokenOwner_card _ hr
  refine ⟨h.1, ?_, ?_, ?_⟩
  · exact (h.2.2.1 "b" "t3" (ContractGo.DefaultContract.mk
      [("t1", "a"), ("t2", "a"), ("t3", "b")]
      [("a", ["t1", "t2"]), ("b", ["t3"])]
      [("t1", 0), ("t2", 1), ("t3", 0)] "3" "n" "s") (by decide)).1
  · exact (h.2.2.2.1 "t1" (ContractGo.DefaultContract.mk [("t2", "a")]
      [("a", ["t2"])] [("t2", 1)] "1" "n" "s") (by decide)).1
  · exact (h.2.2.2.2 "a" "b" "t1" (ContractGo.DefaultContract.mk
      [("t2", "a"), ("t1", "b")] [("a", ["t2"]), ("b", ["t1"])]
      [("t2", 1), ("t1", 0)] "2" "n" "s") (by decide)).1


/-- C7 counterexample: in the part_005 revision, burning owner `"a"`'s sole
token succeeds (counter drops to `"0"`, the token leaves `tokenOwner`) but
the key `"a"` is not dropped from `ownedTokens`: it stays mapped to the
empty list, falsifying the claim that the owner key is removed entirely
when its list becomes empty. -/
theorem p005_burn_keeps_empty_owner_key_cex :
    (P005.Burn (P005.DefaultContract.mk "" "" [("1", "a")] [("a", ["1"])]
        [("1", 0)] "1" []) 1).okState?.map
      (fun c => (mapLookup c.OwnedTokens "a", c.TotalTokens,
        mapLookup c.TokenOwners "1"))
      = some (some [], "0", none) := rfl

end NftVerify
